import Mathlib

/-!
Verification of the `pixiv3-rs` DSL compiler (`pixiv3-rs-proc/src/lib.rs`)
and the response-parsing helpers (`src/models.rs`) against their
natural-language specification.

The development shallowly embeds, from the source:
* the token-level disambiguation logic of `ParamSpec::parse`
  (`=` default clause versus `=>` transmute arrow, lines 22-54);
* the `ExplicitLifetimeFolder` region/lifetime elaboration pass
  (lines 179-209), over a small model of `syn::Type`;
* the per-parameter wire-value pipeline and the per-endpoint request
  assembly emitted by `api_endpoints` (lines 240-328);
* the generated paginator loop (lines 330-385), as a fuelled
  page-draining function instrumented with the list of fetched cursors;
* `is_error_response` / `parse_into` / `parse_response_into`
  (`src/models.rs`, lines 502-561), with the external `serde_json`
  parse of the body abstracted to its result.
-/

namespace Pixiv3

/-! ## Token model for `ParamSpec::parse`

Rust token streams deliver `=>` as `Punct('=', Joint)` followed by
`Punct('>', ...)`, while a bare assignment `=` arrives as
`Punct('=', Alone)`.  syn's `peek` for the single-character token `=`
matches a `=` punct regardless of its spacing (spacing only matters for
the non-final characters of a multi-character punct), which is exactly
why `ParamSpec::parse` needs the extra `!input.peek2(Token![>])` check.
`Type` and `Expr` sub-parses are abstracted to single `atom` tokens:
the claim under study is purely about the punctuation lookahead that
happens between them. -/

inductive Tok where
  | ident (s : String)
  | litStr (s : String)
  | punct (c : Char) (joint : Bool)
  | atom (n : Nat)
deriving DecidableEq, Repr

/-- `input.peek(Token![=])`: the next token is a `=` punct (any spacing). -/
def peekEq : List Tok → Bool
  | .punct c _ :: _ => c = '='
  | _ => false

/-- `input.peek2(Token![>])`: the token after the next one is a `>` punct. -/
def peek2Gt : List Tok → Bool
  | _ :: .punct c _ :: _ => c = '>'
  | _ => false

/-- `input.peek(Token![=>])`: a `=` punct with Joint spacing followed by `>`. -/
def peekFatArrow : List Tok → Bool
  | .punct c₁ true :: .punct c₂ _ :: _ => c₁ = '=' ∧ c₂ = '>'
  | _ => false

/-- `input.peek(Token![@])`. -/
def peekAt : List Tok → Bool
  | .punct c _ :: _ => c = '@'
  | _ => false

/-- Consume a single-character punct token (syn accepts it whatever its
spacing, as for `peek`). -/
def parsePunct (c : Char) : List Tok → Option (List Tok)
  | .punct c' _ :: ts => if c' = c then some ts else none
  | _ => none

/-- Consume the two tokens of a `=>` arrow. -/
def parseFatArrow : List Tok → Option (List Tok)
  | .punct c₁ true :: .punct c₂ _ :: ts =>
      if c₁ = '=' ∧ c₂ = '>' then some ts else none
  | _ => none

def parseIdentTok : List Tok → Option (String × List Tok)
  | .ident s :: ts => some (s, ts)
  | _ => none

def parseLitStr : List Tok → Option (String × List Tok)
  | .litStr s :: ts => some (s, ts)
  | _ => none

/-- A `Type` or `Expr` sub-parse, abstracted to one opaque token. -/
def parseAtom : List Tok → Option (Nat × List Tok)
  | .atom n :: ts => some (n, ts)
  | _ => none

/-- The parsed form of one `ParamSpec`
(`name @ "key"? : Type (= default)? (=> transmute)?`).  `ty`, `default`
and `transmute` hold the opaque atom standing for the sub-tree. -/
structure ParamSpecAst where
  name : String
  key_override : Option String
  ty : Nat
  default : Option Nat
  transmute : Option Nat
deriving DecidableEq, Repr

/-- Shallow embedding of `impl Parse for ParamSpec`
(`pixiv3-rs-proc/src/lib.rs`, lines 22-54): name, optional `@ "key"`,
`:`, type, then a default clause only when `=` is seen and the token
after it is not `>`, then a transmute clause when `=>` is seen. -/
def parseParamSpec (ts : List Tok) : Option (ParamSpecAst × List Tok) := do
  let (name, ts) ← parseIdentTok ts
  let (key_override, ts) ←
    if peekAt ts then do
      let ts ← parsePunct '@' ts
      let (k, ts) ← parseLitStr ts
      pure (some k, ts)
    else
      pure ((none : Option String), ts)
  let ts ← parsePunct ':' ts
  let (ty, ts) ← parseAtom ts
  let (default, ts) ←
    if peekEq ts && !peek2Gt ts then do
      let ts ← parsePunct '=' ts
      let (d, ts) ← parseAtom ts
      pure (some d, ts)
    else
      pure ((none : Option Nat), ts)
  let (transmute, ts) ←
    if peekFatArrow ts then do
      let ts ← parseFatArrow ts
      let (e, ts) ← parseAtom ts
      pure (some e, ts)
    else
      pure ((none : Option Nat), ts)
  pure ({ name, key_override, ty, default, transmute }, ts)

/-! ## Region (lifetime) elaboration: `ExplicitLifetimeFolder`

`api_endpoints` runs `folder.fold_type(spec.ty.clone())` over every
parameter type, section by section, spec by spec, with one folder per
endpoint.  `fold_type` is syn's default deep fold, which recurses into
every type constructor (in particular into the generic arguments of a
path type such as `Option<&str>`); only `fold_type_reference` is
overridden.  We model `syn::Type` with three constructors: a path with
no type arguments, a type constructor applied to one type argument
(the shape of every parameter type in the repository: `Option<T>`,
`&[T]`, ... — a multi-argument application is a left-to-right fold of
the same one-argument step), and a reference with an optional
lifetime.  A lifetime is either a user-written (named) one or a
synthesized marker; the folder renders marker `n` as the identifier
composed of the letter a and the decimal digits of `n`, so distinct
markers render distinctly. -/

inductive Lt where
  | named (s : String)
  | synth (n : Nat)
deriving DecidableEq, Repr

inductive Ty where
  | path0 (name : String)
  | path1 (name : String) (arg : Ty)
  | ref (lt : Option Lt) (elem : Ty)
deriving DecidableEq, Repr

/-- The folder's state: the fresh-marker counter and the recorded
lifetimes, in traversal order (`Vec::push` appends). -/
structure FolderState where
  counter : Nat
  lifetimes : List Lt
deriving DecidableEq, Repr

/-- `ExplicitLifetimeFolder::new()`. -/
def FolderState.init : FolderState := { counter := 0, lifetimes := [] }

/-- Shallow embedding of `folder.fold_type` for `ExplicitLifetimeFolder`
(`pixiv3-rs-proc/src/lib.rs`, lines 195-209): the default syn fold
recurses into non-reference structure; the overridden
`fold_type_reference` pushes an already-explicit lifetime and returns
the reference otherwise untouched, while for an unannotated reference
it increments the counter, synthesizes and records a fresh marker,
attaches it, and folds the pointee. -/
def foldType (st : FolderState) : Ty → FolderState × Ty
  | .path0 n => (st, .path0 n)
  | .path1 n a =>
      let p := foldType st a
      (p.1, .path1 n p.2)
  | .ref (some lt) elem =>
      ({ st with lifetimes := st.lifetimes ++ [lt] }, .ref (some lt) elem)
  | .ref none elem =>
      let c := st.counter + 1
      let lt := Lt.synth c
      let st1 : FolderState := { counter := c, lifetimes := st.lifetimes ++ [lt] }
      let p := foldType st1 elem
      (p.1, .ref (some lt) p.2)

/-- The per-endpoint elaboration loop: one folder, threaded over every
parameter type in section order then declaration order. -/
def foldTypes (st : FolderState) : List Ty → FolderState × List Ty
  | [] => (st, [])
  | t :: ts =>
      let p := foldType st t
      let q := foldTypes p.1 ts
      (q.1, p.2 :: q.2)

/-- All reference sub-types reachable by the fold carry no explicit
lifetime (true of every endpoint declared in the repository). -/
def noExplicit : Ty → Bool
  | .path0 _ => true
  | .path1 _ a => noExplicit a
  | .ref (some _) _ => false
  | .ref none elem => noExplicit elem

/-- Every reference sub-type carries a lifetime. -/
def allAnnotated : Ty → Bool
  | .path0 _ => true
  | .path1 _ a => allAnnotated a
  | .ref none _ => false
  | .ref (some _) elem => allAnnotated elem

/-- The index of a synthesized marker. -/
def synthIdx : Lt → Option Nat
  | .synth n => some n
  | .named _ => none

/-! ## The emitted base operation

For each `ParamSpec`, `api_endpoints` emits (lines 263-291):

  a `let` rebinding the parameter to `unwrap_or_else` of the default
  expression when a default is present, then a `let` rebinding it to
  the transmute expression when one is present, then exactly one
  `push` of the wire value into the map named by the section's kind,
  under the `key_override` literal when present and `stringify!(name)`
  otherwise.

Runtime values are modelled untyped: `vnone`/`vsome` are the
`Option::None`/`Option::Some` shapes `unwrap_or_else` scrutinizes, and
`vatom` is any other value.  (`unwrap_or_else` on a non-`Option` value
does not occur in well-typed generated code; the model maps a `vatom`
to itself there.)  A default expression is a thunk — Rust's
`unwrap_or_else(|| default)` evaluates it only in the `None` case — and
a transmute expression is a function of the (possibly defaulted)
parameter value, which it receives under the parameter's name. -/

inductive Val where
  | vnone
  | vsome (w : Val)
  | vatom (n : Nat)
deriving DecidableEq, Repr

/-- `v.unwrap_or_else(|| d)`. -/
def unwrapOrElse (v : Val) (d : Unit → Val) : Val :=
  match v with
  | .vnone => d ()
  | .vsome w => w
  | .vatom n => .vatom n

/-- One `ParamSpec` as the emitter consumes it: its declared name, the
optional wire-key override, the optional default expression (a thunk)
and the optional transmute expression (a function of the parameter). -/
structure ParamSpecSem where
  name : String
  key_override : Option String
  default : Option (Unit → Val)
  transmute : Option (Val → Val)

/-- The wire key chosen at lines 263-267: the `key_override` literal
when present, else `stringify!(name)`. -/
def emitKey (s : ParamSpecSem) : String :=
  s.key_override.getD s.name

/-- The wire value computed by the emitted `let` chain (lines 269-281):
default substitution first (only when a default is declared), then the
transmute expression on the possibly-defaulted value. -/
def paramWire (s : ParamSpecSem) (v : Val) : Val :=
  let v1 :=
    match s.default with
    | some d => unwrapOrElse v d
    | none => v
  match s.transmute with
  | some f => f v1
  | none => v1

/-- The emitted body of one section: for each `ParamSpec` in
declaration order, exactly one `push` appending `(key, wire value)` to
the section's ordered multi-map (line 283-287), starting from the map
`m` the section variable holds. -/
def runSection (entries : List ParamSpecSem) (args : String → Val)
    (m : List (String × Val)) : List (String × Val) :=
  entries.foldl (fun acc s => acc ++ [(emitKey s, paramWire s (args s.name))]) m

/-- One `ParamSection`: its kind identifier and its entries. -/
structure ParamSectionSem where
  kind : String
  entries : List ParamSpecSem

/-- One `ApiEndpoint` as the emitter consumes it (the pieces the
request-dispatch claims need). -/
structure EndpointSem where
  name : String
  method : String
  url : String
  sections : List ParamSectionSem

/-- `ApiEndpoint::find_section` (lines 172-177): the first section
whose kind equals the given name. -/
def find_section (e : EndpointSem) (kind : String) : Option ParamSectionSem :=
  e.sections.find? (fun s => s.kind = kind)

/-- The final contents of the local variable named `k` in the emitted
body.  The emitter first declares one `let mut` map per section (lines
293-297), then runs every section body (lines 283-287 via line 321);
when several sections share a kind the later `let` shadows the earlier
one, so every push whose section has kind `k` lands in the one
surviving binding, in global emission order.  With distinct kinds this
is exactly the one section's own map. -/
def sectionVar (e : EndpointSem) (k : String) (args : String → Val) :
    List (String × Val) :=
  runSection ((e.sections.filter (fun s => s.kind = k)).flatMap (fun s => s.entries))
    args []

/-- The single request the emitted operation dispatches through
`do_api_request` (line 323). -/
structure Request where
  method : String
  url : String
  headers : Option Nat
  params : Option (List (String × Val))
  data : Option (List (String × Val))
  with_auth : Bool

/-- Shallow embedding of the emitted base operation's dispatch (lines
299-325): the URL is `format!` of the configured host and the literal
path; headers are `None`; the third and fourth arguments are
`Some(params)` / `Some(data)` exactly when the endpoint declares a
section literally named `params` / `data` (lines 299-308), and those
names refer to the corresponding section variables; `with_auth` is the
caller's flag. -/
def emitRequest (host : String) (e : EndpointSem) (args : String → Val)
    (with_auth : Bool) : Request where
  method := e.method
  url := host ++ e.url
  headers := none
  params :=
    if (find_section e "params").isSome then some (sectionVar e "params" args)
    else none
  data :=
    if (find_section e "data").isSome then some (sectionVar e "data" args)
    else none
  with_auth := with_auth

/-! ## The emitted paginator (`stream` feature, lines 330-385)

The generated `*_iter` function is an `async_stream::try_stream!`:

  it calls the base operation (`?` makes a failure the stream's final
  `Err` event), reads the cursor field, then loops: yield every item of
  the current page in order; if the cursor is `Some(url)` fetch the
  next page via `visit_next_url` (again `?`-propagating a failure as
  the final event) and read its cursor, else break.

The cursor field is the identifier given after `@` in the paged
clause, or the identifier `next_url` when none was given (lines
337-340).  A page is modelled by the values of its two relevant
fields; the whole drained stream is computed by a fuelled recursion
(the fuel bounds the number of follow-up fetches; every theorem below
supplies enough fuel for its page chain, so the artificial fuel-0
cut-off is never reached).  The output records the yielded items in
order, the optional terminal failure event, and the cursors actually
fetched, in order. -/

/-- The `paged` clause: item field name and optional cursor field name. -/
structure PagedSem where
  field : String
  next_url : Option String

/-- Lines 337-340: the cursor field defaults to `next_url`. -/
def nextUrlFieldName (p : PagedSem) : String :=
  p.next_url.getD "next_url"

/-- The two fields of a fetched page the paginator reads. -/
structure PageVal (α : Type) where
  items : List α
  cursor : Option String
deriving DecidableEq, Repr

/-- What a consumer observes when draining the stream. -/
structure DrainOut (α ε : Type) where
  yielded : List α
  failure : Option ε
  fetched : List String
deriving DecidableEq, Repr

/-- The loop of the generated stream (lines 363-379), starting from an
already-fetched page: yield the page's items, then follow the cursor
(one `visit_next_url` per iteration) until it is absent or a fetch
fails. -/
def drainPages (fetch : String → Except ε (PageVal α)) :
    Nat → PageVal α → DrainOut α ε
  | _, ⟨items, none⟩ => ⟨items, none, []⟩
  | 0, ⟨items, some _⟩ => ⟨items, none, []⟩
  | fuel + 1, ⟨items, some url⟩ =>
      match fetch url with
      | .error e => ⟨items, some e, [url]⟩
      | .ok p =>
          let r := drainPages fetch fuel p
          ⟨items ++ r.yielded, r.failure, url :: r.fetched⟩

/-- The whole generated stream (lines 358-380): the base operation's
result seeds the loop; its failure is the sole, final event. -/
def runPaginator (fetch : String → Except ε (PageVal α)) (fuel : Nat)
    (first : Except ε (PageVal α)) : DrainOut α ε :=
  match first with
  | .error e => ⟨[], some e, []⟩
  | .ok p => drainPages fetch fuel p

/-! ## Response parsing (`src/models.rs`, lines 499-561)

`serde_json` is external; its parse of the body string is abstracted
to its result: `body : Option JVal` is `some` of the parsed JSON value
when the body is valid JSON, `none` otherwise, and the deserialization
of the target type `T` from a parsed value is an abstract
`dec : JVal → Option T` (`from_str::<T>` succeeds exactly when the
body parses and `dec` accepts the value).  JSON values are modelled as
objects (whose `get` probes the key list) and one opaque constructor
for every non-object value (`Value::get` returns `None` on those). -/

inductive JVal where
  | obj (fields : List (String × JVal))
  | leaf (n : Nat)
deriving Repr

/-- `serde_json::Value::get(key)`: field lookup on objects, `None` on
any other value. -/
def JVal.get (v : JVal) (key : String) : Option JVal :=
  match v with
  | .obj fields => fields.lookup key
  | .leaf _ => none

/-- The error kinds `parse_response_into` can produce (payloads
omitted; the claims are about the kind). -/
inductive PixivErrorKind where
  | RateLimited
  | NotFound
  | Serde
  | ErrResponse
deriving DecidableEq, Repr

/-- `is_error_response` (lines 502-507): the body parses as JSON and
`parsed.get("error")` is `Some`. -/
def is_error_response (body : Option JVal) : Bool :=
  match body with
  | some parsed => (parsed.get "error").isSome
  | none => false

/-- `parse_into` (lines 512-522): deserialize the body into `T`, with
`PixivError::Serde` on any parse failure. -/
def parse_into (dec : JVal → Option T) (body : Option JVal) :
    Except PixivErrorKind T :=
  match body with
  | some j =>
      match dec j with
      | some t => .ok t
      | none => .error .Serde
  | none => .error .Serde

/-- `parse_response_into` (lines 527-561): 429 and 404 are
special-cased; every other status — success or not — falls through to
`parse_into`, whose `Serde` failure is upgraded to `ErrResponse` when
the body is a JSON object with an `"error"` key. -/
def parse_response_into (dec : JVal → Option T) (status : Nat)
    (body : Option JVal) : Except PixivErrorKind T :=
  if status = 429 then .error .RateLimited
  else if status = 404 then .error .NotFound
  else
    match parse_into dec body with
    | .ok t => .ok t
    | .error e =>
        .error
          (match e with
           | .Serde => if is_error_response body then .ErrResponse else .Serde
           | _ => e)

/-! ## Invariants and concrete inputs used by the theorems -/

/-- Strict ordering between synthesized markers (vacuous on named ones). -/
def synthLt (a b : Lt) : Prop :=
  ∀ m n, a = .synth m → b = .synth n → m < n

/-- Every synthesized marker in sight has index at most `c`. -/
def synthLe (c : Nat) (l : Lt) : Prop :=
  ∀ n, l = .synth n → n ≤ c

/-- The folder's running invariant: recorded synthesized markers are
strictly increasing along the list, and all are bounded by the
counter. -/
def FolderInv (st : FolderState) : Prop :=
  st.lifetimes.Pairwise synthLt ∧ ∀ l ∈ st.lifetimes, synthLe st.counter l

/-- The type mentions no synthesized marker (true of every type a DSL
author can write: explicit lifetimes in the source are named). -/
def namedOnly : Ty → Bool
  | .path0 _ => true
  | .path1 _ a => namedOnly a
  | .ref none elem => namedOnly elem
  | .ref (some (.named _)) elem => namedOnly elem
  | .ref (some (.synth _)) _ => false

/-- `Option<&str>`. -/
def tyOptRefStr : Ty := .path1 "Option" (.ref none (.path0 "str"))

/-- A reference with the explicit region `x` to a `str`. -/
def tyRefXStr : Ty := .ref (some (.named "x")) (.path0 "str")

/-- A reference with the explicit region `x` to an unannotated
reference to `str`. -/
def tyRefXRefStr : Ty := .ref (some (.named "x")) (.ref none (.path0 "str"))

/-- Two-page happy path: cursor `C2` yields the final page `[c]` with
no further cursor. -/
def exFetch : String → Except String (PageVal String) :=
  fun u => if u = "C2" then .ok ⟨["c"], none⟩ else .error "boom"

/-- Cursor `C2` yields page `[c]` pointing at cursor `BAD`; any other
cursor fails. -/
def exFetchChain : String → Except String (PageVal String) :=
  fun u => if u = "C2" then .ok ⟨["c"], some "BAD"⟩ else .error "boom"

/-- A fetch that always fails. -/
def exFetchFail : String → Except String (PageVal String) :=
  fun _ => .error "boom"

/-- A concrete endpoint with a `params` and a `data` section. -/
def epEx : EndpointSem where
  name := "user_detail"
  method := "GET"
  url := "/v1/user/detail"
  sections :=
    [⟨"params", [⟨"user_id", none, none, none⟩]⟩,
     ⟨"data", [⟨"setting", some "show_ai", none, none⟩]⟩]

/-- Concrete caller arguments. -/
def argsEx : String → Val := fun _ => .vatom 7

/-- A decoder that rejects every body (stands for a body that does not
deserialize into the target type). -/
def decFail : JVal → Option Nat := fun _ => none

/-- A body that is a JSON object with an `"error"` key. -/
def errBody : Option JVal := some (.obj [("error", .leaf 0)])

/-- A small endpoint parameter-type list mixing explicit and
unannotated references. -/
def exTys : List Ty := [tyRefXStr, .ref none (.path0 "str"), tyOptRefStr]

/-! ## Helper lemmas -/

/-- The emitted section body is the map of its entries, appended after
whatever the section variable already holds. -/
theorem runSection_eq (entries : List ParamSpecSem) (args : String → Val)
    (m : List (String × Val)) :
    runSection entries args m =
      m ++ entries.map (fun s => (emitKey s, paramWire s (args s.name))) := by
  induction entries generalizing m with
  | nil => simp [runSection]
  | cons s ss ih =>
      rw [runSection, List.foldl_cons, ← runSection, ih, List.map_cons,
        List.append_assoc, List.singleton_append]

/-- With pairwise-distinct section kinds, the sections of a given kind
are exactly the one `find_section` returns (or none). -/
theorem filter_kind_eq_find (sections : List ParamSectionSem) (k : String)
    (h : (sections.map (fun s => s.kind)).Nodup) :
    sections.filter (fun s => s.kind = k) =
      ((sections.find? (fun s => s.kind = k)).map (fun s => [s])).getD [] := by
  induction sections with
  | nil => rfl
  | cons s ss ih =>
      rw [List.map_cons, List.nodup_cons] at h
      by_cases hk : s.kind = k
      · subst hk
        have hnil : ss.filter (fun t => t.kind = s.kind) = [] := by
          apply List.filter_eq_nil_iff.mpr
          intro t ht hdec
          exact h.1 (List.mem_map.mpr ⟨t, ht, of_decide_eq_true hdec⟩)
        simp [List.filter_cons, List.find?_cons, hnil]
      · simp only [List.filter_cons, List.find?_cons, decide_eq_true_eq, hk,
          if_false, ite_false]
        rw [ih h.2]
        simp [hk]

/-- The folder only ever appends to the recorded region list. -/
theorem foldType_lifetimes_mono (t : Ty) (st : FolderState) :
    ∃ L, (foldType st t).1.lifetimes = st.lifetimes ++ L := by
  induction t generalizing st with
  | path0 n => exact ⟨[], by simp [foldType]⟩
  | path1 n a ih => simpa [foldType] using ih st
  | ref lt elem ih =>
      cases lt with
      | some l => exact ⟨[l], by simp [foldType]⟩
      | none =>
          obtain ⟨L, hL⟩ :=
            ih { counter := st.counter + 1,
                 lifetimes := st.lifetimes ++ [Lt.synth (st.counter + 1)] }
          exact ⟨Lt.synth (st.counter + 1) :: L, by
            simp [foldType, hL]⟩

/-- List version of `foldType_lifetimes_mono`. -/
theorem foldTypes_lifetimes_mono (ts : List Ty) (st : FolderState) :
    ∃ L, (foldTypes st ts).1.lifetimes = st.lifetimes ++ L := by
  induction ts generalizing st with
  | nil => exact ⟨[], by simp [foldTypes]⟩
  | cons t ts ih =>
      obtain ⟨L₁, h₁⟩ := foldType_lifetimes_mono t st
      obtain ⟨L₂, h₂⟩ := ih (foldType st t).1
      exact ⟨L₁ ++ L₂, by simp [foldTypes, h₂, h₁]⟩

/-- The fresh-marker counter never decreases. -/
theorem foldType_counter_mono (t : Ty) (st : FolderState) :
    st.counter ≤ (foldType st t).1.counter := by
  induction t generalizing st with
  | path0 n => simp [foldType]
  | path1 n a ih => simpa [foldType] using ih st
  | ref lt elem ih =>
      cases lt with
      | some l => simp [foldType]
      | none =>
          have := ih ⟨st.counter + 1, st.lifetimes ++ [Lt.synth (st.counter + 1)]⟩
          simp only [foldType]
          dsimp only at this
          omega

/-- The folder invariant is preserved on inputs whose explicit
lifetimes are all named. -/
theorem foldType_inv (t : Ty) (st : FolderState) (hn : namedOnly t = true)
    (h : FolderInv st) : FolderInv (foldType st t).1 := by
  induction t generalizing st with
  | path0 n => exact h
  | path1 n a ih => exact ih st hn h
  | ref lt elem ih =>
      cases lt with
      | some l =>
          cases l with
          | synth m => simp [namedOnly] at hn
          | named s =>
              refine ⟨?_, ?_⟩
              · refine List.pairwise_append.mpr ⟨h.1, List.pairwise_singleton _ _, ?_⟩
                intro a ha b hb
                rw [List.mem_singleton] at hb
                subst hb
                intro m n _ hbn
                exact absurd hbn (by simp)
              · intro l hl
                rcases List.mem_append.mp hl with hl | hl
                · exact h.2 l hl
                · rw [List.mem_singleton] at hl
                  subst hl
                  intro n hn'
                  exact absurd hn' (by simp)
      | none =>
          have hstep :
              FolderInv ⟨st.counter + 1, st.lifetimes ++ [Lt.synth (st.counter + 1)]⟩ := by
            refine ⟨?_, ?_⟩
            · refine List.pairwise_append.mpr ⟨h.1, List.pairwise_singleton _ _, ?_⟩
              intro a ha b hb
              rw [List.mem_singleton] at hb
              subst hb
              intro m n ham hbn
              have hm : m ≤ st.counter := h.2 a ha m ham
              have : n = st.counter + 1 := by
                injection hbn.symm
              omega
            · intro l hl
              rcases List.mem_append.mp hl with hl | hl
              · intro n hn'
                have := h.2 l hl n hn'
                dsimp only
                omega
              · rw [List.mem_singleton] at hl
                subst hl
                intro n hn'
                injection hn'.symm with h'
                dsimp only
                omega
          exact ih _ (by simpa [namedOnly] using hn) hstep

/-- The folder invariant is preserved across the per-endpoint loop. -/
theorem foldTypes_inv (ts : List Ty) (st : FolderState)
    (hn : ts.all namedOnly = true) (h : FolderInv st) :
    FolderInv (foldTypes st ts).1 := by
  induction ts generalizing st with
  | nil => exact h
  | cons t ts ih =>
      rw [List.all_cons, Bool.and_eq_true] at hn
      exact ih (foldType st t).1 hn.2 (foldType_inv t st hn.1 h)

/-- Pairwise-increasing synthesized markers have pairwise-distinct
indices. -/
theorem synthIdx_nodup {l : List Lt} (h : l.Pairwise synthLt) :
    (l.filterMap synthIdx).Nodup := by
  induction l with
  | nil => simp
  | cons a l ih =>
      rw [List.pairwise_cons] at h
      cases a with
      | named s => simpa [List.filterMap_cons, synthIdx] using ih h.2
      | synth m =>
          rw [List.filterMap_cons]
          simp only [synthIdx]
          rw [List.nodup_cons]
          refine ⟨?_, ih h.2⟩
          intro hmem
          obtain ⟨b, hb, hbm⟩ := List.mem_filterMap.mp hmem
          have hlt := h.1 b hb
          cases b with
          | named s => simp [synthIdx] at hbm
          | synth n =>
              simp only [synthIdx, Option.some.injEq] at hbm
              have := hlt m n rfl rfl
              omega

/-! ## Claim theorems -/

/-- C1: for a `ParamSpec` with both a default expression and a
transmute expression, the wire value is the transmute applied to the
defaulted value: the transmute sees the default's result when the
caller's value is absent and the supplied value itself otherwise; the
default thunk is never evaluated on a present value (the result does
not depend on it), and the transmute's argument is always the
post-default value, never the pre-default absent state. -/
theorem default_before_transmute (nm : String) (ko : Option String)
    (d dAlt : Unit → Val) (f : Val → Val) (w : Val) :
    paramWire ⟨nm, ko, some d, some f⟩ .vnone = f (d ()) ∧
    paramWire ⟨nm, ko, some d, some f⟩ (.vsome w) = f w ∧
    paramWire ⟨nm, ko, some d, some f⟩ (.vsome w) =
      paramWire ⟨nm, ko, some dAlt, some f⟩ (.vsome w) ∧
    ∀ v : Val, paramWire ⟨nm, ko, some d, some f⟩ v = f (unwrapOrElse v d) :=
  ⟨rfl, rfl, rfl, fun _ => rfl⟩

/-- C7: `name : Type => expr` (a `=` punct with Joint spacing followed
by `>`) parses with no default and `transmute = expr`, because the `=`
is taken as a default clause only when the following token is not `>`;
and `name : Type = d => f` parses with `default = d` and
`transmute = f`. -/
theorem paramSpec_arrow_disambiguation (nm : String) (T D F : Nat) :
    parseParamSpec
        [.ident nm, .punct ':' false, .atom T,
          .punct '=' true, .punct '>' false, .atom F] =
      some (⟨nm, none, T, none, some F⟩, []) ∧
    parseParamSpec
        [.ident nm, .punct ':' false, .atom T,
          .punct '=' false, .atom D,
          .punct '=' true, .punct '>' false, .atom F] =
      some (⟨nm, none, T, some D, some F⟩, []) :=
  ⟨rfl, rfl⟩

/-- C8: one invocation of the generated base operation pushes exactly
one entry per `ParamSpec` into that spec's section map, in declaration
order, and the entry's key is the `key_override` literal when present
and the parameter's declared name otherwise. -/
theorem section_map_one_entry_per_spec (entries : List ParamSpecSem)
    (args : String → Val) :
    runSection entries args [] =
      entries.map (fun s => (emitKey s, paramWire s (args s.name))) ∧
    (runSection entries args []).length = entries.length ∧
    (runSection entries args []).map Prod.fst = entries.map emitKey := by
  have h := runSection_eq entries args []
  rw [List.nil_append] at h
  refine ⟨h, by rw [h, List.length_map], ?_⟩
  rw [h, List.map_map]
  rfl

/-- C4 counterexample: folding a reference that names the explicit
region `x` around an unannotated reference records only `x` and
returns the type verbatim — the pointee is not recursed into, so the
nested reference is neither recorded nor given a synthesized
marker (the claim says it would be). -/
theorem explicit_ref_not_recursed_cex :
    foldType FolderState.init tyRefXRefStr = (⟨0, [.named "x"]⟩, tyRefXRefStr) :=
  rfl

/-- C4 (amended): for a reference that already names an explicit
region, the elaborator records that region unchanged (it never renames
it) and returns the reference — pointee included — untouched: it does
not recurse, so references nested inside an explicitly-annotated
reference are left unelaborated. -/
theorem explicit_ref_recorded_unchanged (st : FolderState) (lt : Lt) (elem : Ty) :
    foldType st (.ref (some lt) elem) =
      (⟨st.counter, st.lifetimes ++ [lt]⟩, .ref (some lt) elem) :=
  rfl

/-- C5 counterexample: when the same explicit region `x` annotates two
parameter types, the produced region list records it twice — it is not
de-duplicated, contradicting the claim. -/
theorem region_list_duplicate_cex :
    (foldTypes FolderState.init [tyRefXStr, tyRefXStr]).1.lifetimes =
      [.named "x", .named "x"] ∧
    ¬ (foldTypes FolderState.init [tyRefXStr, tyRefXStr]).1.lifetimes.Nodup := by
  exact ⟨rfl, by decide⟩

/-- C5 (amended): the region list records one marker per recorded
occurrence, in traversal order (it only ever grows by appending), and
the synthesized markers in it are pairwise distinct; it is not
de-duplicated, so the same explicit region name may appear several
times. -/
theorem region_list_synth_fresh (ts : List Ty) (hn : ts.all namedOnly = true) :
    ((foldTypes FolderState.init ts).1.lifetimes.filterMap synthIdx).Nodup ∧
    ∀ st : FolderState, ∃ L, (foldTypes st ts).1.lifetimes = st.lifetimes ++ L := by
  refine ⟨?_, fun st => foldTypes_lifetimes_mono ts st⟩
  have h0 : FolderInv FolderState.init :=
    ⟨List.Pairwise.nil, fun l hl => absurd hl (List.not_mem_nil l)⟩
  exact synthIdx_nodup (foldTypes_inv ts FolderState.init hn h0).1

/-- Witness for C5 (amended) at a concrete parameter-type list. -/
theorem region_list_synth_fresh_witness :
    exTys.all namedOnly = true ∧
    ((foldTypes FolderState.init exTys).1.lifetimes.filterMap synthIdx).Nodup :=
  ⟨by decide, (region_list_synth_fresh exTys (by decide)).1⟩

/-- C6 counterexample: folding `Option<&str>` — a non-reference type —
does traverse into the generic argument: the inner reference receives
the synthesized marker 1, which is also recorded, contradicting the
claim that the type is left unchanged and not traversed. -/
theorem generic_arg_traversed_cex :
    foldType FolderState.init tyOptRefStr =
      (⟨1, [.synth 1]⟩, .path1 "Option" (.ref (some (.synth 1)) (.path0 "str"))) :=
  rfl

/-- C6 (amended): the elaborator performs a deep fold: it traverses
non-reference type structure, so every reference in a type with no
explicit regions — including references nested inside generic type
arguments of non-reference types — ends up carrying a region
marker. -/
theorem deep_fold_annotates_unannotated (t : Ty) (st : FolderState)
    (hn : noExplicit t = true) : allAnnotated (foldType st t).2 = true := by
  induction t generalizing st with
  | path0 n => rfl
  | path1 n a ih =>
      simp only [foldType, allAnnotated]
      exact ih st (by simpa [noExplicit] using hn)
  | ref lt elem ih =>
      cases lt with
      | some l => simp [noExplicit] at hn
      | none =>
          simp only [foldType, allAnnotated]
          exact ih _ (by simpa [noExplicit] using hn)

/-- Witness for C6 (amended): `Option<&str>` has no explicit region
and is fully annotated after the fold. -/
theorem deep_fold_annotates_unannotated_witness :
    noExplicit tyOptRefStr = true ∧
    allAnnotated (foldType FolderState.init tyOptRefStr).2 = true :=
  ⟨rfl, deep_fold_annotates_unannotated tyOptRefStr FolderState.init rfl⟩

/-- C2: the paginator yields each fetched page's items in server
order, all items of page N strictly before any item of page N+1 (the
drained output is the current page's items followed by the rest of the
run); the next page is fetched from the page's cursor; the cursor
field is the one named `next_url` when the paged clause names none;
and an absent cursor ends the sequence with no further fetch and no
error.  Concretely, pages `[a, b]` (cursor `C2`) then `[c]` (cursor
absent) yield exactly `a, b, c` and end. -/
theorem paginator_yields_in_page_order (α ε : Type) :
    (∀ (fetch : String → Except ε (PageVal α)) (fuel : Nat) (items : List α),
        drainPages fetch fuel ⟨items, none⟩ = ⟨items, none, []⟩) ∧
    (∀ (fetch : String → Except ε (PageVal α)) (fuel : Nat) (items : List α)
        (url : String) (p : PageVal α), fetch url = .ok p →
        drainPages fetch (fuel + 1) ⟨items, some url⟩ =
          ⟨items ++ (drainPages fetch fuel p).yielded,
            (drainPages fetch fuel p).failure,
            url :: (drainPages fetch fuel p).fetched⟩) ∧
    nextUrlFieldName ⟨"illusts", none⟩ = "next_url" ∧
    runPaginator exFetch 1 (.ok ⟨["a", "b"], some "C2"⟩) =
      ⟨["a", "b", "c"], none, ["C2"]⟩ := by
  refine ⟨?_, ?_, rfl, rfl⟩
  · intro fetch fuel items
    cases fuel <;> rfl
  · intro fetch fuel items url p hp
    simp [drainPages, hp]

/-- Witness for C2 at the specification's concrete two-page run. -/
theorem paginator_yields_in_page_order_witness :
    exFetch "C2" = .ok ⟨["c"], none⟩ ∧
    drainPages exFetch 1 ⟨["a", "b"], some "C2"⟩ =
      ⟨["a", "b", "c"], none, ["C2"]⟩ := by
  refine ⟨rfl, ?_⟩
  have h := (paginator_yields_in_page_order String String).2.1 exFetch 0
    ["a", "b"] "C2" ⟨["c"], none⟩ rfl
  exact h.trans rfl

/-- C3: if the follow-up request for a non-absent cursor fails, the
paginator has already yielded every item of the pages fetched so far,
surfaces that failure as its final event, and fetches nothing further
(the failing cursor is the last fetch).  Concretely, pages `[a, b]`
(cursor `C2`) then `[c]` (cursor `BAD`, whose fetch fails) yield
`a, b, c`, then the failure, with exactly the two fetches. -/
theorem paginator_failure_is_final (α ε : Type) :
    (∀ (fetch : String → Except ε (PageVal α)) (fuel : Nat) (items : List α)
        (url : String) (e : ε), fetch url = .error e →
        drainPages fetch (fuel + 1) ⟨items, some url⟩ = ⟨items, some e, [url]⟩) ∧
    runPaginator exFetchChain 5 (.ok ⟨["a", "b"], some "C2"⟩) =
      ⟨["a", "b", "c"], some "boom", ["C2", "BAD"]⟩ := by
  refine ⟨?_, rfl⟩
  intro fetch fuel items url e he
  simp [drainPages, he]

/-- Witness for C3: a failing first follow-up yields the first page's
items, then the failure, with the one failed fetch. -/
theorem paginator_failure_is_final_witness :
    exFetchFail "u" = .error "boom" ∧
    drainPages exFetchFail 3 ⟨["a"], some "u"⟩ = ⟨["a"], some "boom", ["u"]⟩ :=
  ⟨rfl, (paginator_failure_is_final String String).1 exFetchFail 2 ["a"] "u" "boom" rfl⟩

/-- C9: with pairwise-distinct section kinds, the generated base
operation dispatches one request carrying the endpoint's method tag,
the URL formed by concatenating the host with the literal path, no
custom headers, the map of the section literally named `params` when
one is declared (`None` otherwise), likewise for `data`, and the
caller's `with_auth` flag; no other section's map is passed. -/
theorem dispatch_request_shape (host : String) (e : EndpointSem)
    (args : String → Val) (wa : Bool)
    (h : (e.sections.map (fun s => s.kind)).Nodup) :
    (emitRequest host e args wa).method = e.method ∧
    (emitRequest host e args wa).url = host ++ e.url ∧
    (emitRequest host e args wa).headers = none ∧
    (emitRequest host e args wa).with_auth = wa ∧
    (emitRequest host e args wa).params =
      (find_section e "params").map (fun s => runSection s.entries args []) ∧
    (emitRequest host e args wa).data =
      (find_section e "data").map (fun s => runSection s.entries args []) := by
  have key : ∀ k : String,
      (if (find_section e k).isSome then some (sectionVar e k args) else none) =
        (find_section e k).map (fun s => runSection s.entries args []) := by
    intro k
    cases hfind : find_section e k with
    | none => simp
    | some s =>
        simp only [Option.isSome_some, if_true, Option.map_some']
        unfold sectionVar
        rw [filter_kind_eq_find e.sections k h]
        unfold find_section at hfind
        rw [hfind]
        simp
  exact ⟨rfl, rfl, rfl, rfl, key "params", key "data"⟩

/-- Witness for C9 at a concrete endpoint declaring a `params` and a
`data` section with distinct kinds. -/
theorem dispatch_request_shape_witness :
    (epEx.sections.map (fun s => s.kind)).Nodup ∧
    (emitRequest "https://app-api.pixiv.net" epEx argsEx true).params =
      (find_section epEx "params").map (fun s => runSection s.entries argsEx []) :=
  ⟨by decide,
   (dispatch_request_shape "https://app-api.pixiv.net" epEx argsEx true
      (by decide)).2.2.2.2.1⟩

/-- C10: for any status other than 429 and 404 — including non-success
statuses such as 500 — `parse_response_into` still attempts to
deserialize the body: a body that deserializes yields `Ok`; a body
that does not is reported as `ErrResponse` when it is a JSON object
with an `"error"` key and as a `Serde` decode error otherwise. -/
theorem parse_response_decode_policy (T : Type) (dec : JVal → Option T)
    (status : Nat) (body : Option JVal)
    (h429 : status ≠ 429) (h404 : status ≠ 404) :
    (∀ j t, body = some j → dec j = some t →
        parse_response_into dec status body = .ok t) ∧
    (parse_into dec body = .error .Serde → is_error_response body = true →
        parse_response_into dec status body = .error .ErrResponse) ∧
    (parse_into dec body = .error .Serde → is_error_response body = false →
        parse_response_into dec status body = .error .Serde) := by
  unfold parse_response_into
  rw [if_neg h429, if_neg h404]
  refine ⟨?_, ?_, ?_⟩
  · rintro j t rfl hd
    simp [parse_into, hd]
  · intro hp he
    rw [hp, he]
    rfl
  · intro hp he
    rw [hp, he]
    rfl

/-- Witness for C10 at status 500 with an undeserializable body that
is a JSON object carrying an `"error"` key. -/
theorem parse_response_decode_policy_witness :
    (500 : Nat) ≠ 429 ∧ (500 : Nat) ≠ 404 ∧
    parse_response_into decFail 500 errBody = .error .ErrResponse :=
  ⟨by decide, by decide,
   (parse_response_decode_policy Nat decFail 500 errBody (by decide)
      (by decide)).2.1 rfl rfl⟩

end Pixiv3
